import Mathlib

/-!
Verification development for the Aardvark Any Importer addon
(src/aardvark_any_importer.py).

The Python module is shallowly embedded: Python strings become lists of
characters, the Blender preference collection becomes a list of records,
host-side state (registered operators, operator property introspection,
the actual operator call) is passed in as explicit parameters, and Python
exceptions become an explicit error type threaded through `Except`.
-/

namespace Aardvark

/-- Python strings are modelled as lists of characters. -/
abbrev Str := List Char

/-- Character list of a Lean string literal, used to write concrete inputs. -/
def chars (s : String) : Str := s.data

/-- Python `s.split(sep)` for a single-character separator `sep`:
`"a..b".split(".") == ["a", "", "b"]` and `"".split(".") == [""]`. -/
def pySplit (sep : Char) : Str → List Str
  | [] => [[]]
  | c :: rest =>
    match pySplit sep rest with
    | [] => [[c]]
    | g :: gs => if c = sep then [] :: g :: gs else (c :: g) :: gs

/-- Python `sep.join(parts)`. -/
def pyJoinSep (sep : Str) : List Str → Str
  | [] => []
  | [x] => x
  | x :: y :: rest => x ++ sep ++ pyJoinSep sep (y :: rest)

/-- Python `str.replace(".", "")` composed with `str.lower()` as used by
`add_extension`; `Char.toLower` models `str.lower` on the ASCII range. -/
def normalizeExt (s : Str) : Str :=
  (s.filter (fun c => decide (c ≠ '.'))).map Char.toLower

/-- Python `s.rfind(c)`: index of the last occurrence, `-1` when absent. -/
def rfindI (c : Char) (s : Str) : Int :=
  match s.reverse.findIdx? (fun x => x == c) with
  | none => -1
  | some j => (s.length : Int) - 1 - (j : Int)

/-- `os.path.splitext` (posixpath): split off the extension at the last dot,
unless every character between the last separator and that dot is a dot
(so `".bashrc"` has no extension). -/
def splitext (p : Str) : Str × Str :=
  let sepIndex := rfindI '/' p
  let dotIndex := rfindI '.' p
  if sepIndex < dotIndex then
    let between := (p.drop (sepIndex + 1).toNat).take (dotIndex - sepIndex - 1).toNat
    if between.any (fun x => x != '.') then
      (p.take dotIndex.toNat, p.drop dotIndex.toNat)
    else (p, [])
  else (p, [])

/-- `os.path.splitext(name)[-1][1:]`, the extension computed for every
selected file name in `IMPORT_OT_import_any_file.execute` (line 159). -/
def pyExtOf (name : Str) : Str := ((splitext name).2).drop 1

/-- `os.path.join` (posixpath) on two components. -/
def os_path_join (a b : Str) : Str :=
  if b.head? = some '/' then b
  else if a = [] then b
  else if a.getLast? = some '/' then a ++ b
  else a ++ '/' :: b

/-- Python slice `s[:-2]`. -/
def pySliceToNeg2 (s : Str) : Str := s.take (s.length - 2)

/-- Python tuple unpacking `a, b = l` for a list: `ValueError` unless the
list has exactly two elements. -/
inductive PyErr where
  | indexError
  | valueError
  | typeError
  | hostError (msg : Str)
deriving DecidableEq

def pyUnpack2 (l : List Str) : Except PyErr (Str × Str) :=
  match l with
  | [a, b] => .ok (a, b)
  | _ => .error .valueError

/-- An entry of the `file_extensions` preference collection
(`FileAssociation` in the Python module). -/
structure FileAssociation where
  extension : Str
  operator : Str
deriving DecidableEq

/-- Outcome of `hasattr(props, ...)` introspection on a target operator's
property group in `import_single` (lines 198-200): whether the operator
exposes `filepath`, `directory` and `files` parameters. -/
structure OpProps where
  filepath : Bool
  directory : Bool
  files : Bool
deriving DecidableEq

/-- The keyword arguments assembled by `import_single`; the Python
`files` value is a list of `{"name": name}` dictionaries, modelled as the
list of names. -/
structure Kwargs where
  filepath : Option Str := none
  directory : Option Str := none
  files : Option (List Str) := none
deriving DecidableEq

/-- One completed call of a host operator: which operator was invoked
(positional argument `INVOKE_DEFAULT` is implicit) and with which keyword
arguments. -/
structure Invocation where
  oper : Str
  kwargs : Kwargs
deriving DecidableEq

/-- Result-set returned by Blender operators. -/
inductive RetStatus where
  | FINISHED
  | CANCELLED
deriving DecidableEq

/-- Report level of `Operator.report`. -/
inductive ReportLevel where
  | WARNING
  | ERROR
deriving DecidableEq

/-- A `self.report({level}, message)` call. -/
abbrev Report := ReportLevel × Str

/-- The first-match scan over `prefs.file_extensions` in `import_single`
(lines 183-187): the operator associated to an extension, `None` when no
entry matches. -/
def findOper (prefs : List FileAssociation) (ext : Str) : Option Str :=
  match prefs with
  | [] => none
  | p :: rest => if p.extension = ext then some p.operator else findOper rest ext

/-- Line 177: `[imp.name for imp in self.files if imp.name.endswith(ext)]`. -/
def importFilesFor (selfFiles : List Str) (ext : Str) : List Str :=
  selfFiles.filter (fun nm => ext.isSuffixOf nm)

/-- The keyword-argument construction of `import_single` (lines 202-218);
`files.[0]` raises `IndexError` on an empty list. -/
def buildKwargs (props : OpProps) (directory : Str) (files : List Str) :
    Except PyErr Kwargs :=
  if props.filepath && props.directory && props.files then
    match files with
    | [] => .error .indexError
    | f0 :: _ =>
      .ok { filepath := some (os_path_join directory f0),
            directory := some directory,
            files := some files }
  else if props.filepath && props.directory && !props.files then
    match files with
    | [] => .error .indexError
    | f0 :: _ => .ok { filepath := some f0, directory := some directory }
  else if props.filepath && !props.directory then
    match files with
    | [] => .error .indexError
    | f0 :: _ => .ok { filepath := some (os_path_join directory f0) }
  else if props.files && props.directory then
    .ok { files := some files, directory := some directory }
  else .ok {}

/-- `IMPORT_OT_import_any_file.import_single` (lines 175-228). Host state
appears as parameters: `propsOf` models `operator_properties_last`
introspection and `call` models the final `oper_func(*args, **kwargs)`
invocation, which may raise. A missing association leaves `oper = None`
and the subsequent attribute accesses raise (`typeError`). -/
def import_single (prefs : List FileAssociation) (propsOf : Str → OpProps)
    (call : Str → Kwargs → Except PyErr Unit)
    (selfFiles : List Str) (directory : Str) (ext : Str) :
    Except PyErr Invocation :=
  match findOper prefs ext with
  | none => .error .typeError
  | some oper =>
    match buildKwargs (propsOf oper) directory (importFilesFor selfFiles ext) with
    | .error e => .error e
    | .ok kwargs =>
      match pyUnpack2 (pySplit '.' oper) with
      | .error e => .error e
      | .ok _ =>
        match call oper kwargs with
        | .error e => .error e
        | .ok _ => .ok { oper := oper, kwargs := kwargs }

/-- The default associations installed by
`IMPORT_OT_import_any_reset_extensions.execute` (lines 257-299), in the
`sorted(defaults)` key order the Python loop uses. -/
def defaultAssociations : List FileAssociation :=
  [⟨chars ("abc"), chars ("wm.alembic_import")⟩,
   ⟨chars ("ase"), chars ("import_ase.read")⟩,
   ⟨chars ("bvh"), chars ("import_anim.bvh")⟩,
   ⟨chars ("chan"), chars ("import_scene.import_chan")⟩,
   ⟨chars ("dae"), chars ("wm.collada_import")⟩,
   ⟨chars ("dxf"), chars ("import_scene.dxf")⟩,
   ⟨chars ("fbx"), chars ("import_scene.fbx")⟩,
   ⟨chars ("mdd"), chars ("import_shape.mdd")⟩,
   ⟨chars ("obj"), chars ("import_scene.obj")⟩,
   ⟨chars ("py"), chars ("text.open")⟩,
   ⟨chars ("rtf"), chars ("text.open")⟩,
   ⟨chars ("stl"), chars ("import_mesh.stl")⟩,
   ⟨chars ("svg"), chars ("import_curve.svg")⟩,
   ⟨chars ("txt"), chars ("text.open")⟩,
   ⟨chars ("wrl"), chars ("import_scene.x3d")⟩,
   ⟨chars ("x3d"), chars ("import_scene.x3d")⟩,
   ⟨chars ("xyz"), chars ("import_mesh.xyz")⟩]

/-- Line 148-149: an empty preference collection is reset to the defaults
before the import loop runs. -/
def effPrefs (prefs0 : List FileAssociation) : List FileAssociation :=
  if prefs0 = [] then defaultAssociations else prefs0

/-- State of the `for ext in extensions` loop of `execute`
(lines 162-167): invocations performed so far, accumulated `ext_missing`,
and the first uncaught exception if one was raised. -/
structure LoopOut where
  invs : List Invocation
  miss : List Str
  err : Option PyErr
deriving DecidableEq

def execLoop (prefs : List FileAssociation) (propsOf : Str → OpProps)
    (call : Str → Kwargs → Except PyErr Unit)
    (selfFiles : List Str) (directory : Str) (curr : List Str) :
    List Str → LoopOut
  | [] => ⟨[], [], none⟩
  | ext :: rest =>
    if ext ∈ curr then
      match import_single prefs propsOf call selfFiles directory ext with
      | .error e => ⟨[], [], some e⟩
      | .ok inv =>
        let r := execLoop prefs propsOf call selfFiles directory curr rest
        ⟨inv :: r.invs, r.miss, r.err⟩
    else
      let r := execLoop prefs propsOf call selfFiles directory curr rest
      ⟨r.invs, ext :: r.miss, r.err⟩

/-- The warning text of line 170-171:
`"Extensions not associated: " + ", ".join(ext_missing)`. -/
def warnMsg (missing : List Str) : Str :=
  chars ("Extensions not associated: ") ++ pyJoinSep (chars (", ")) missing

/-- Observable outcome of `IMPORT_OT_import_any_file.execute`: the host
operator invocations performed, the accumulated `ext_missing` list, the
reports issued, and either the returned status or the escaped exception. -/
structure ExecOutcome where
  invocations : List Invocation
  ext_missing : List Str
  reports : List Report
  result : Option RetStatus
  error : Option PyErr
deriving DecidableEq

/-- Packaging of the loop state into the outcome of `execute`: an escaped
exception suppresses the warning report and the return value (lines
169-173 run only when the loop finishes). -/
def execOutcomeOf (r : LoopOut) : ExecOutcome :=
  match r.err with
  | some e => ⟨r.invs, r.miss, [], none, some e⟩
  | none =>
    ⟨r.invs, r.miss,
     if r.miss = [] then [] else [(.WARNING, warnMsg r.miss)],
     some .FINISHED, none⟩

/-- `IMPORT_OT_import_any_file.execute` (lines 144-173). The selection
directory (line 153, `os.path.dirname(self.filepath)`) is a parameter.
Line 156 indexes `self.files[0]`, so an empty selection raises
`IndexError`. Python's `set(extensions)` iterates in unspecified order;
it is modelled as `List.dedup` of the extension list. -/
def execute (prefs0 : List FileAssociation) (propsOf : Str → OpProps)
    (call : Str → Kwargs → Except PyErr Unit)
    (selfFiles : List Str) (directory : Str) : ExecOutcome :=
  match selfFiles with
  | [] => ⟨[], [], [], none, some .indexError⟩
  | _ :: _ =>
    execOutcomeOf
      (execLoop (effPrefs prefs0) propsOf call selfFiles directory
        ((effPrefs prefs0).map (·.extension)) ((selfFiles.map pyExtOf).dedup))

/-- Result of a preference-editing operator: the new collection, the
returned status and the reports issued. -/
structure PrefOpResult where
  prefs : List FileAssociation
  status : RetStatus
  reports : List Report
deriving DecidableEq

/-- `IMPORT_OT_import_any_reset_extensions.execute` (lines 251-300):
clear the collection and repopulate it with the defaults. -/
def reset_extensions (_s : List FileAssociation) : PrefOpResult :=
  ⟨defaultAssociations, .FINISHED, []⟩

/-- `IMPORT_OT_import_any_add_extension.execute` (lines 314-327);
`normalizeExt input` is the computation of `this_ext` on line 317. -/
def add_extension (s : List FileAssociation) (input : Str) : PrefOpResult :=
  if normalizeExt input ∈ s.map (·.extension) then
    ⟨s, .CANCELLED, [(.ERROR, chars ("Extension already defined"))]⟩
  else
    ⟨s ++ [⟨normalizeExt input, []⟩], .FINISHED, []⟩

/-- The `enumerate` scan of `IMPORT_OT_import_any_remove_extension.execute`
(lines 343-347): index of the first entry with the given extension. -/
def firstMatchIdx (ext : Str) : List FileAssociation → Option Nat
  | [] => none
  | p :: rest =>
    if p.extension = ext then some 0 else (firstMatchIdx ext rest).map (· + 1)

/-- The error text of lines 353-354. -/
def removeErrMsg (ext : Str) : Str :=
  chars ("Extension ") ++ ext ++ chars (" missing, cannot remove")

/-- `IMPORT_OT_import_any_remove_extension.execute` (lines 338-355). -/
def remove_extension (s : List FileAssociation) (ext : Str) : PrefOpResult :=
  match firstMatchIdx ext s with
  | some i => ⟨s.eraseIdx i, .FINISHED, []⟩
  | none => ⟨s, .CANCELLED, [(.ERROR, removeErrMsg ext)]⟩

/-- Preference states reachable through the addon's editing operators,
starting from the empty collection (the `CollectionProperty` default). -/
inductive Reachable : List FileAssociation → Prop where
  | init : Reachable []
  | reset : ∀ s, Reachable s → Reachable (reset_extensions s).prefs
  | add : ∀ s input, Reachable s → Reachable (add_extension s input).prefs
  | remove : ∀ s e, Reachable s → Reachable (remove_extension s e).prefs

/-- Lookup in the host operator registry, modelling
`base in dir(bpy.ops) and oprs in dir(getattr(bpy.ops, base))`
(line 117). The registry is an association list from operator category to
its registered operator names. -/
def registryHas (registry : List (Str × List Str)) (base oprs : Str) : Bool :=
  match registry.find? (fun ent => ent.1 == base) with
  | none => false
  | some ent => ent.2.contains oprs

/-- `operator_exists` (lines 104-119), on the default `refresh=True` path
(the cache is cleared first, so the result does not depend on it). The
unpacking `base, oprs = ref.split(".")` on line 116 raises `ValueError`
when the split does not have exactly two parts. -/
def operator_exists (registry : List (Str × List Str)) (ref : Str) :
    Except PyErr Bool :=
  if '.' ∈ ref then
    match pyUnpack2 (pySplit '.' ref) with
    | .error e => .error e
    | .ok (base, oprs) => .ok (registryHas registry base oprs)
  else .ok false

/-- `operator_code_update` (lines 358-373), the update callback of the
`operator` preference field. An unset `new_base` (Python `None`, or the
falsy empty string) is encoded as `[]`. -/
def operator_code_update (oper : Str) : Str :=
  let truncate := (chars ("()")).isSuffixOf oper
  let parts := pySplit '.' oper
  let nb := if parts.length = 4 then pyJoinSep (chars (".")) (parts.drop 2) else []
  if nb ≠ [] then
    (if truncate then pySliceToNeg2 nb else nb)
  else
    (if truncate then pySliceToNeg2 oper else oper)

/-- Modelled from the words of the claims: remove a single trailing
`"()"` when present, leave the string unchanged otherwise. Compared
against `operator_code_update`. -/
def stripTrailingParens (s : Str) : Str :=
  if (chars ("()")).isSuffixOf s then s.take (s.length - 2) else s

/-- Whether a file name occurs among the arguments of a keyword set: as
the `filepath` value (bare or joined with the directory) or as an entry
of the `files` list. -/
def kwargsMentions (kw : Kwargs) (directory n : Str) : Bool :=
  kw.filepath == some n || kw.filepath == some (os_path_join directory n) ||
  (match kw.files with
   | none => false
   | some fs => fs.contains n)

/-- Whether a file name occurs among the arguments of any host operator
invocation performed by `execute`. -/
def execMentions (out : ExecOutcome) (directory n : Str) : Bool :=
  out.invocations.any (fun inv => kwargsMentions inv.kwargs directory n)

/-! ### Helper lemmas about the string utilities -/

theorem pySplit_ne_nil (sep : Char) (s : Str) : pySplit sep s ≠ [] := by
  cases s with
  | nil => simp [pySplit]
  | cons c rest =>
    rw [pySplit]
    split
    · simp
    · split <;> simp

theorem pyJoinSep_pySplit (sep : Char) (s : Str) :
    pyJoinSep [sep] (pySplit sep s) = s := by
  induction s with
  | nil => rfl
  | cons c rest ih =>
    rw [pySplit]
    rcases h : pySplit sep rest with _ | ⟨g, gs⟩
    · exact absurd h (pySplit_ne_nil sep rest)
    · rw [h] at ih
      by_cases hc : c = sep
      · subst hc
        simp only [if_pos rfl]
        cases gs <;> simp [pyJoinSep] at ih ⊢ <;> simp [ih]
      · simp only [if_neg hc]
        cases gs with
        | nil =>
          simp [pyJoinSep] at ih ⊢
          simp [ih]
        | cons g2 gs2 =>
          simp [pyJoinSep] at ih ⊢
          simp [ih]

theorem mem_iff_pySplit_length (sep : Char) (s : Str) :
    sep ∈ s ↔ 2 ≤ (pySplit sep s).length := by
  induction s with
  | nil => simp [pySplit]
  | cons c rest ih =>
    rw [pySplit]
    rcases h : pySplit sep rest with _ | ⟨g, gs⟩
    · exact absurd h (pySplit_ne_nil sep rest)
    · rw [h] at ih
      by_cases hc : c = sep
      · subst hc
        simp [if_pos rfl]
      · simp only [if_neg hc, List.mem_cons, List.length_cons]
        simp only [List.length_cons] at ih
        constructor
        · rintro (rfl | hm)
          · exact absurd rfl hc
          · exact ih.mp hm
        · intro hlen
          exact Or.inr (ih.mpr hlen)

theorem splitext_snd_suffix (p : Str) : (splitext p).2 <:+ p := by
  dsimp only [splitext]
  split_ifs <;> simp [List.drop_suffix, List.nil_suffix]

theorem pyExtOf_suffix (n : Str) : pyExtOf n <:+ n :=
  List.IsSuffix.trans (List.drop_suffix _ _) (splitext_snd_suffix n)

theorem pyExtOf_isSuffixOf {n ext : Str} (h : pyExtOf n = ext) :
    ext.isSuffixOf n = true :=
  List.isSuffixOf_iff_suffix.mpr (h ▸ pyExtOf_suffix n)

theorem mem_importFilesFor {selfFiles : List Str} {ext n : Str} :
    n ∈ importFilesFor selfFiles ext ↔ n ∈ selfFiles ∧ ext.isSuffixOf n = true :=
  List.mem_filter

/-! ### Helper lemmas about dispatch -/

theorem buildKwargs_ok_cases {props : OpProps} {directory : Str}
    {files : List Str} {kw : Kwargs}
    (h : buildKwargs props directory files = .ok kw) :
    (props.filepath = true ∧ props.directory = true ∧ props.files = true ∧
       ∃ f0 t, files = f0 :: t ∧
         kw = ⟨some (os_path_join directory f0), some directory, some files⟩) ∨
    (props.filepath = true ∧ props.directory = true ∧ props.files = false ∧
       ∃ f0 t, files = f0 :: t ∧ kw = ⟨some f0, some directory, none⟩) ∨
    (props.filepath = true ∧ props.directory = false ∧
       ∃ f0 t, files = f0 :: t ∧
         kw = ⟨some (os_path_join directory f0), none, none⟩) ∨
    (props.filepath = false ∧ props.directory = true ∧ props.files = true ∧
       kw = ⟨none, some directory, some files⟩) ∨
    (props.filepath = false ∧ (props.directory = false ∨ props.files = false) ∧
       kw = ⟨none, none, none⟩) := by
  rcases props with ⟨fp, d, fl⟩
  cases fp <;> cases d <;> cases fl <;> cases files <;>
    simp_all [buildKwargs]

theorem buildKwargs_files_field {props : OpProps} {directory : Str}
    {files : List Str} {kw : Kwargs} (hd : props.directory = true)
    (hf : props.files = true)
    (h : buildKwargs props directory files = .ok kw) :
    kw.files = some files := by
  rcases buildKwargs_ok_cases h with
    ⟨_, _, _, _, _, _, rfl⟩ | ⟨_, _, hff, _⟩ | ⟨_, hdd, _⟩ |
    ⟨_, _, _, rfl⟩ | ⟨_, hor, _⟩
  · rfl
  · rw [hf] at hff; cases hff
  · rw [hd] at hdd; cases hdd
  · rfl
  · rcases hor with hdd | hff
    · rw [hd] at hdd; cases hdd
    · rw [hf] at hff; cases hff

theorem import_single_ok {prefs : List FileAssociation}
    {propsOf : Str → OpProps} {call : Str → Kwargs → Except PyErr Unit}
    {selfFiles : List Str} {directory ext : Str} {inv : Invocation}
    (h : import_single prefs propsOf call selfFiles directory ext = .ok inv) :
    findOper prefs ext = some inv.oper ∧
    buildKwargs (propsOf inv.oper) directory (importFilesFor selfFiles ext) =
      .ok inv.kwargs := by
  unfold import_single at h
  rcases ho : findOper prefs ext with _ | oper <;> rw [ho] at h <;>
    dsimp only at h
  · cases h
  · rcases hb : buildKwargs (propsOf oper) directory (importFilesFor selfFiles ext)
      with e | kw <;> rw [hb] at h <;> dsimp only at h
    · cases h
    · rcases hu : pyUnpack2 (pySplit '.' oper) with e | pq <;> rw [hu] at h <;>
        dsimp only at h
      · cases h
      · rcases hc : call oper kw with e | u <;> rw [hc] at h <;> dsimp only at h
        · cases h
        · cases h
          exact ⟨rfl, hb⟩

/-! ### Helper lemmas about the import loop -/

section LoopLemmas

variable (prefs : List FileAssociation) (propsOf : Str → OpProps)
  (call : Str → Kwargs → Except PyErr Unit)
  (selfFiles : List Str) (directory : Str) (curr : List Str)

theorem execLoop_err_none_miss (exts : List Str) :
    (execLoop prefs propsOf call selfFiles directory curr exts).err = none →
    (execLoop prefs propsOf call selfFiles directory curr exts).miss
      = exts.filter (fun e => decide (e ∉ curr)) := by
  induction exts with
  | nil => intro _; rfl
  | cons ext rest ih =>
    intro h
    rw [execLoop] at h ⊢
    by_cases hm : ext ∈ curr
    · rw [if_pos hm] at h ⊢
      revert h
      rcases hi : import_single prefs propsOf call selfFiles directory ext
        with e | inv <;> dsimp only <;> intro h
      · cases h
      · simp [List.filter_cons, hm, ih h]
    · rw [if_neg hm] at h ⊢
      dsimp only at h ⊢
      simp [List.filter_cons, hm, ih h]

theorem execLoop_err_none_dispatch (exts : List Str) :
    (execLoop prefs propsOf call selfFiles directory curr exts).err = none →
    ∀ ext ∈ exts, ext ∈ curr →
      ∃ inv ∈ (execLoop prefs propsOf call selfFiles directory curr exts).invs,
        import_single prefs propsOf call selfFiles directory ext = .ok inv := by
  induction exts with
  | nil => intro _ ext hmem; cases hmem
  | cons e rest ih =>
    intro h ext hmem hc
    rw [execLoop] at h ⊢
    by_cases hm : e ∈ curr
    · rw [if_pos hm] at h ⊢
      revert h
      rcases hi : import_single prefs propsOf call selfFiles directory e
        with er | inv <;> dsimp only <;> intro h
      · cases h
      · rcases List.mem_cons.mp hmem with rfl | hmem'
        · exact ⟨inv, List.mem_cons_self _ _, hi⟩
        · obtain ⟨inv', hin', hok'⟩ := ih h ext hmem' hc
          exact ⟨inv', List.mem_cons_of_mem _ hin', hok'⟩
    · rw [if_neg hm] at h ⊢
      dsimp only at h ⊢
      rcases List.mem_cons.mp hmem with rfl | hmem'
      · exact absurd hc hm
      · exact ih h ext hmem' hc

theorem execLoop_err_none_src (exts : List Str) :
    (execLoop prefs propsOf call selfFiles directory curr exts).err = none →
    ∀ inv ∈ (execLoop prefs propsOf call selfFiles directory curr exts).invs,
      ∃ e ∈ exts, e ∈ curr ∧
        import_single prefs propsOf call selfFiles directory e = .ok inv := by
  induction exts with
  | nil => intro _ inv hmem; cases hmem
  | cons e rest ih =>
    intro h inv hmem
    rw [execLoop] at h hmem
    by_cases hm : e ∈ curr
    · rw [if_pos hm] at h hmem
      revert h hmem
      rcases hi : import_single prefs propsOf call selfFiles directory e
        with er | inv' <;> dsimp only <;> intro h hmem
      · cases h
      · rcases List.mem_cons.mp hmem with rfl | hmem'
        · exact ⟨e, List.mem_cons_self _ _, hm, hi⟩
        · obtain ⟨e', he', hc', hok'⟩ := ih h inv hmem'
          exact ⟨e', List.mem_cons_of_mem _ he', hc', hok'⟩
    · rw [if_neg hm] at h hmem
      dsimp only at h hmem
      obtain ⟨e', he', hc', hok'⟩ := ih h inv hmem
      exact ⟨e', List.mem_cons_of_mem _ he', hc', hok'⟩

theorem execLoop_append_err_none (l1 l2 : List Str) :
    (execLoop prefs propsOf call selfFiles directory curr l1).err = none →
    execLoop prefs propsOf call selfFiles directory curr (l1 ++ l2) =
      ⟨(execLoop prefs propsOf call selfFiles directory curr l1).invs
         ++ (execLoop prefs propsOf call selfFiles directory curr l2).invs,
       (execLoop prefs propsOf call selfFiles directory curr l1).miss
         ++ (execLoop prefs propsOf call selfFiles directory curr l2).miss,
       (execLoop prefs propsOf call selfFiles directory curr l2).err⟩ := by
  induction l1 with
  | nil => intro _; rfl
  | cons e rest ih =>
    intro h
    simp only [List.cons_append, execLoop] at h ⊢
    by_cases hm : e ∈ curr
    · simp only [if_pos hm] at h ⊢
      revert h
      rcases hi : import_single prefs propsOf call selfFiles directory e
        with er | inv <;> dsimp only <;> intro h
      · cases h
      · simp [ih h]
    · simp only [if_neg hm] at h ⊢
      simp [ih h]

end LoopLemmas

theorem execOutcomeOf_err_none {r : LoopOut} (h : r.err = none) :
    execOutcomeOf r =
      ⟨r.invs, r.miss,
       if r.miss = [] then [] else [(.WARNING, warnMsg r.miss)],
       some .FINISHED, none⟩ := by
  rcases r with ⟨invs, miss, err⟩
  cases err
  · rfl
  · cases h

theorem execOutcomeOf_err_some {r : LoopOut} {e : PyErr} (h : r.err = some e) :
    execOutcomeOf r = ⟨r.invs, r.miss, [], none, some e⟩ := by
  rcases r with ⟨invs, miss, err⟩
  cases err
  · cases h
  · cases h
    rfl

theorem execute_ne_nil (prefs0 : List FileAssociation) (propsOf : Str → OpProps)
    (call : Str → Kwargs → Except PyErr Unit)
    (selfFiles : List Str) (directory : Str) (hne : selfFiles ≠ []) :
    execute prefs0 propsOf call selfFiles directory =
      execOutcomeOf
        (execLoop (effPrefs prefs0) propsOf call selfFiles directory
          ((effPrefs prefs0).map (·.extension))
          ((selfFiles.map pyExtOf).dedup)) := by
  cases selfFiles with
  | nil => exact absurd rfl hne
  | cons a l => rfl

/-! ### Helper lemmas about character normalization -/

theorem toLower_ne_dot {c : Char} (h : c ≠ '.') : Char.toLower c ≠ '.' := by
  unfold Char.toLower
  dsimp only
  split_ifs with hcase
  · obtain ⟨h1, h2⟩ := hcase
    generalize hg : c.toNat = n at h1 h2 ⊢
    interval_cases n <;> decide
  · exact h

theorem toLower_not_upper (c : Char) :
    ¬(65 ≤ (Char.toLower c).toNat ∧ (Char.toLower c).toNat ≤ 90) := by
  unfold Char.toLower
  dsimp only
  split_ifs with hcase
  · obtain ⟨h1, h2⟩ := hcase
    generalize hg : c.toNat = n at h1 h2 ⊢
    interval_cases n <;> decide
  · intro hcon
    exact hcase ⟨hcon.1, hcon.2⟩

theorem mem_normalizeExt {input : Str} {c : Char} (h : c ∈ normalizeExt input) :
    c ≠ '.' ∧ ¬(65 ≤ c.toNat ∧ c.toNat ≤ 90) := by
  unfold normalizeExt at h
  obtain ⟨b, hb, rfl⟩ := List.mem_map.mp h
  have hbn : b ≠ '.' := by
    have hf := List.mem_filter.mp hb
    simpa using hf.2
  exact ⟨toLower_ne_dot hbn, toLower_not_upper b⟩

/-! ### Helper lemmas for the operator auto-fix -/

theorem prefix_pair_split (a b : Char) (hb : b ≠ '.') (u v : Str) :
    (([b, a] : Str) <+: (u ++ '.' :: v)) ↔ (([b, a] : Str) <+: (u ++ ['.'])) := by
  match u with
  | [] =>
    simp only [List.nil_append, List.cons_prefix_cons]
    constructor
    · rintro ⟨hbd, _⟩; exact absurd hbd hb
    · rintro ⟨hbd, _⟩; exact absurd hbd hb
  | [x] =>
    simp [List.cons_prefix_cons]
  | x :: y :: t =>
    simp [List.cons_prefix_cons]

theorem parens_suffix_append (l r : Str) :
    ((['(', ')'] : Str) <:+ (l ++ '.' :: r)) ↔ ((['(', ')'] : Str) <:+ ('.' :: r)) := by
  rw [← List.reverse_prefix, ← List.reverse_prefix]
  simp only [List.reverse_append, List.reverse_cons, List.append_assoc,
    List.singleton_append]
  exact prefix_pair_split '(' ')' (by decide) r.reverse l.reverse

theorem parens_isSuffixOf_append (l r : Str) :
    (chars ("()")).isSuffixOf (l ++ '.' :: r)
      = (chars ("()")).isSuffixOf ('.' :: r) := by
  have hc : chars ("()") = ['(', ')'] := rfl
  rw [Bool.eq_iff_iff, List.isSuffixOf_iff_suffix, List.isSuffixOf_iff_suffix, hc]
  exact parens_suffix_append l r

/-! ### Helper lemmas for the preference-store operators -/

theorem firstMatchIdx_none_iff (ext : Str) (s : List FileAssociation) :
    firstMatchIdx ext s = none ↔ ext ∉ s.map (·.extension) := by
  induction s with
  | nil => simp [firstMatchIdx]
  | cons p rest ih =>
    by_cases hpe : p.extension = ext
    · simp [firstMatchIdx, hpe]
    · simp only [firstMatchIdx, if_neg hpe, Option.map_eq_none', List.map_cons,
        List.mem_cons, ih]
      constructor
      · intro hno hor
        rcases hor with heq | hmem
        · exact hpe heq.symm
        · exact hno hmem
      · intro hno hmem
        exact hno (Or.inr hmem)

theorem firstMatchIdx_some (ext : Str) (s : List FileAssociation) :
    ∀ i, firstMatchIdx ext s = some i →
    ∃ l1 p l2, s = l1 ++ p :: l2 ∧ l1.length = i ∧ p.extension = ext ∧
      (∀ q, q ∈ l1 → q.extension ≠ ext) ∧ s.eraseIdx i = l1 ++ l2 := by
  induction s with
  | nil => intro i h; cases h
  | cons p rest ih =>
    intro i h
    by_cases hpe : p.extension = ext
    · rw [firstMatchIdx, if_pos hpe] at h
      cases h
      exact ⟨[], p, rest, rfl, rfl, hpe, by simp, rfl⟩
    · rw [firstMatchIdx, if_neg hpe] at h
      rcases hfm : firstMatchIdx ext rest with _ | j <;> rw [hfm] at h
      · simp at h
      · obtain rfl : i = j + 1 := by simpa using h.symm
        obtain ⟨l1, q, l2, hs, hlen, hq, hl1, herase⟩ := ih j hfm
        refine ⟨p :: l1, q, l2, by simp [hs], by simp [hlen], hq, ?_, ?_⟩
        · intro r hr
          rcases List.mem_cons.mp hr with rfl | hr'
          · exact hpe
          · exact hl1 r hr'
        · simp only [List.eraseIdx_cons_succ, herase, List.cons_append]

theorem length_four_repr {α : Type _} (l : List α) (h : l.length = 4) :
    ∃ a b c d, l = [a, b, c, d] := by
  match l with
  | [] => simp only [List.length_nil] at h; omega
  | [a] => simp only [List.length_cons, List.length_nil] at h; omega
  | [a, b] => simp only [List.length_cons, List.length_nil] at h; omega
  | [a, b, c] => simp only [List.length_cons, List.length_nil] at h; omega
  | [a, b, c, d] => exact ⟨a, b, c, d, rfl⟩
  | a :: b :: c :: d :: e :: t =>
    simp only [List.length_cons, List.length_nil] at h; omega

/-! ### The claims -/

/-- C2 counterexample: with selection `["a.obj", "b.pobj"]`, the
per-extension file list for `"obj"` includes `"b.pobj"` although its
extension is `"pobj"`, not `"obj"` — `endswith` matches a bare string
suffix, not the extension. -/
theorem C2_counterexample :
    chars ("b.pobj") ∈
      importFilesFor [chars ("a.obj"), chars ("b.pobj")] (chars ("obj")) ∧
    pyExtOf (chars ("b.pobj")) ≠ chars ("obj") := by
  decide

/-- C2 (amended): `import_single` with argument `ext` operates on exactly
the selected files whose NAME ends with the string `ext`; this includes
every selected file whose extension equals `ext`, but may also include
files of other extensions. -/
theorem C2_grouping_by_name_suffix :
    ∀ (selfFiles : List Str) (ext n : Str),
      (n ∈ importFilesFor selfFiles ext ↔
        n ∈ selfFiles ∧ ext.isSuffixOf n = true) ∧
      (n ∈ selfFiles → pyExtOf n = ext → n ∈ importFilesFor selfFiles ext) := by
  intro selfFiles ext n
  refine ⟨mem_importFilesFor, fun hn hext => ?_⟩
  exact mem_importFilesFor.mpr ⟨hn, pyExtOf_isSuffixOf hext⟩

/-- C2 witness: a concrete instantiation of the amended grouping theorem. -/
theorem C2_witness :
    chars ("a.obj") ∈
      importFilesFor [chars ("a.obj"), chars ("b.pobj")] (chars ("obj")) :=
  (C2_grouping_by_name_suffix [chars ("a.obj"), chars ("b.pobj")]
    (chars ("obj")) (chars ("a.obj"))).2 (by decide) (by decide)

/-- C6 counterexample: `operator_exists` raises `ValueError` on a string
with two dots, because `base, oprs = ref.split(".")` unpacks exactly two
values — so the lookup is not total and does not always return a
boolean. -/
theorem C6_counterexample :
    operator_exists [] (chars ("a.b.c")) = .error .valueError := rfl

/-- C6 (amended): `operator_exists` returns `False` when the string has
no dot, returns the registry lookup of the two dot-separated parts when
the string has exactly one dot, and raises `ValueError` when the string
has two or more dots. -/
theorem C6_operator_exists_spec :
    ∀ (registry : List (Str × List Str)) (ref : Str),
      ('.' ∉ ref → operator_exists registry ref = .ok false) ∧
      ((pySplit '.' ref).length = 2 →
        ∃ base oprs, pySplit '.' ref = [base, oprs] ∧
          operator_exists registry ref = .ok (registryHas registry base oprs)) ∧
      (2 < (pySplit '.' ref).length →
        operator_exists registry ref = .error .valueError) := by
  intro registry ref
  refine ⟨?_, ?_, ?_⟩
  · intro hnd
    unfold operator_exists
    rw [if_neg hnd]
  · intro hlen
    have hdot : '.' ∈ ref :=
      (mem_iff_pySplit_length '.' ref).mpr (le_of_eq hlen.symm)
    obtain ⟨a, b, hab⟩ : ∃ a b, pySplit '.' ref = [a, b] := by
      rcases hsp : pySplit '.' ref with _ | ⟨x, _ | ⟨y, _ | ⟨z, t⟩⟩⟩ <;>
          rw [hsp] at hlen <;>
          simp only [List.length_cons, List.length_nil] at hlen
      · omega
      · omega
      · exact ⟨x, y, rfl⟩
      · omega
    refine ⟨a, b, hab, ?_⟩
    unfold operator_exists
    rw [if_pos hdot, hab]
    rfl
  · intro hlen
    have hdot : '.' ∈ ref :=
      (mem_iff_pySplit_length '.' ref).mpr (by omega)
    unfold operator_exists
    rw [if_pos hdot]
    rcases hsp : pySplit '.' ref with _ | ⟨x, _ | ⟨y, _ | ⟨z, t⟩⟩⟩ <;>
        rw [hsp] at hlen <;>
        simp only [List.length_cons, List.length_nil] at hlen
    · omega
    · omega
    · omega
    · rfl

/-- C6 witness: the amended lookup theorem at concrete inputs. -/
theorem C6_witness :
    operator_exists [] (chars ("nodots")) = .ok false :=
  (C6_operator_exists_spec [] (chars ("nodots"))).1 (by decide)

/-- C8: `add_extension` stores the input with every dot removed and all
(ASCII) letters lowercased, with an empty operator field; hence the
stored extension contains no dot and no uppercase letter. -/
theorem C8_add_extension_normalizes :
    ∀ (s : List FileAssociation) (input : Str),
      ((add_extension s input).status = .FINISHED →
        (add_extension s input).prefs = s ++ [⟨normalizeExt input, []⟩]) ∧
      (∀ c, c ∈ normalizeExt input →
        c ≠ '.' ∧ ¬(65 ≤ c.toNat ∧ c.toNat ≤ 90)) := by
  intro s input
  constructor
  · intro hst
    unfold add_extension at hst ⊢
    split_ifs at hst ⊢ with hmem
    rfl
  · intro c hc
    exact mem_normalizeExt hc

/-- C8 witness: adding `"OBJ"` to the empty store. -/
theorem C8_witness :
    (add_extension [] (chars ("OBJ"))).prefs =
      [] ++ [⟨normalizeExt (chars ("OBJ")), []⟩] :=
  (C8_add_extension_normalizes [] (chars ("OBJ"))).1 (by decide)

/-- C9: `remove_extension` removes exactly the first entry carrying the
requested extension and returns `FINISHED`; when the extension is absent
it reports an error, returns `CANCELLED` and leaves the store
unchanged. -/
theorem C9_remove_extension_spec :
    ∀ (s : List FileAssociation) (ext : Str),
      (ext ∈ s.map (·.extension) →
        ∃ l1 p l2, s = l1 ++ p :: l2 ∧ p.extension = ext ∧
          (∀ q, q ∈ l1 → q.extension ≠ ext) ∧
          (remove_extension s ext).prefs = l1 ++ l2 ∧
          (remove_extension s ext).status = .FINISHED ∧
          (remove_extension s ext).reports = []) ∧
      (ext ∉ s.map (·.extension) →
        (remove_extension s ext).prefs = s ∧
        (remove_extension s ext).status = .CANCELLED ∧
        (remove_extension s ext).reports = [(.ERROR, removeErrMsg ext)]) := by
  intro s ext
  constructor
  · intro hmem
    rcases hfm : firstMatchIdx ext s with _ | i
    · exact absurd hmem ((firstMatchIdx_none_iff ext s).mp hfm)
    · obtain ⟨l1, p, l2, hs, hlen, hpe, hl1, herase⟩ :=
        firstMatchIdx_some ext s i hfm
      refine ⟨l1, p, l2, hs, hpe, hl1, ?_, ?_, ?_⟩ <;>
          unfold remove_extension <;> rw [hfm]
      exact herase
  · intro hmem
    have hfm : firstMatchIdx ext s = none :=
      (firstMatchIdx_none_iff ext s).mpr hmem
    unfold remove_extension
    rw [hfm]
    exact ⟨rfl, rfl, rfl⟩

/-- C9 witness: removing an absent extension from the default store. -/
theorem C9_witness :
    (remove_extension defaultAssociations (chars ("zzz"))).prefs =
      defaultAssociations ∧
    (remove_extension defaultAssociations (chars ("zzz"))).status =
      .CANCELLED :=
  ⟨((C9_remove_extension_spec defaultAssociations (chars ("zzz"))).2
      (by decide)).1,
   ((C9_remove_extension_spec defaultAssociations (chars ("zzz"))).2
      (by decide)).2.1⟩

/-- C10: with exactly four dot-separated components,
`operator_code_update` keeps only the last two components with a trailing
`"()"` removed; with any other number of components it only strips a
trailing `"()"` when present and is otherwise the identity. -/
theorem C10_operator_code_update_spec :
    ∀ oper : Str,
      ((pySplit '.' oper).length = 4 →
        operator_code_update oper =
          stripTrailingParens
            (pyJoinSep (chars (".")) ((pySplit '.' oper).drop 2))) ∧
      ((pySplit '.' oper).length ≠ 4 →
        operator_code_update oper = stripTrailingParens oper) := by
  intro oper
  constructor
  · intro h4
    obtain ⟨p0, p1, p2, p3, hp⟩ := length_four_repr (pySplit '.' oper) h4
    have hdot : chars (".") = ['.'] := rfl
    have hoper : oper = (p0 ++ '.' :: (p1 ++ '.' :: p2)) ++ '.' :: p3 := by
      have hj := pyJoinSep_pySplit '.' oper
      rw [hp] at hj
      rw [← hj]
      simp [pyJoinSep]
    have hnb2 : pyJoinSep (chars (".")) (([p0, p1, p2, p3] : List Str).drop 2)
        = p2 ++ '.' :: p3 := by
      rw [hdot]
      simp [pyJoinSep]
    have htr : (chars ("()")).isSuffixOf oper
        = (chars ("()")).isSuffixOf (p2 ++ '.' :: p3) := by
      rw [hoper, parens_isSuffixOf_append, parens_isSuffixOf_append]
    unfold operator_code_update
    dsimp only
    rw [hp]
    rw [if_pos (show ([p0, p1, p2, p3] : List Str).length = 4 from by simp)]
    rw [hnb2]
    rw [if_pos (show (p2 ++ '.' :: p3 : Str) ≠ [] from by simp)]
    rw [htr]
    unfold stripTrailingParens pySliceToNeg2
    rfl
  · intro h4
    unfold operator_code_update stripTrailingParens pySliceToNeg2
    dsimp only
    rw [if_neg h4]
    simp

/-- C10 witness: the auto-fix on the four-component example from the
docstring. -/
theorem C10_witness :
    operator_code_update (chars ("bpy.ops.import_scene.obj()")) =
      stripTrailingParens
        (pyJoinSep (chars ("."))
          ((pySplit '.' (chars ("bpy.ops.import_scene.obj()"))).drop 2)) :=
  (C10_operator_code_update_spec (chars ("bpy.ops.import_scene.obj()"))).1
    (by decide)

/-- C4: The preference store is a mapping from extension to operator
name: in every state reachable through `reset_extensions`,
`add_extension` and `remove_extension` the stored extensions are pairwise
distinct, and `add_extension` on an already-present extension reports an
error and returns `CANCELLED` without modifying the store. -/
theorem C4_pref_store_mapping :
    (∀ s, Reachable s → (s.map (·.extension)).Nodup) ∧
    (∀ (s : List FileAssociation) (input : Str),
      normalizeExt input ∈ s.map (·.extension) →
      (add_extension s input).prefs = s ∧
      (add_extension s input).status = .CANCELLED ∧
      (add_extension s input).reports =
        [(.ERROR, chars ("Extension already defined"))]) := by
  constructor
  · intro s hs
    induction hs with
    | init => simp
    | reset s' _ _ =>
      exact (by decide : ((defaultAssociations.map (·.extension)).Nodup))
    | add s' input _ ih =>
      unfold add_extension
      split_ifs with hmem
      · exact ih
      · show (((s' ++ [FileAssociation.mk (normalizeExt input) []]).map
          (fun p : FileAssociation => p.extension)).Nodup)
        rw [List.map_append, List.nodup_append]
        refine ⟨ih, List.nodup_singleton _, ?_⟩
        intro a ha hb
        simp only [List.map_cons, List.map_nil, List.mem_singleton] at hb
        subst hb
        exact hmem ha
    | remove s' e _ ih =>
      unfold remove_extension
      rcases hfm : firstMatchIdx e s' with _ | i
      · exact ih
      · exact List.Nodup.sublist
          (List.Sublist.map _ (List.eraseIdx_sublist s' i)) ih
  · intro s input hmem
    unfold add_extension
    rw [if_pos hmem]
    exact ⟨rfl, rfl, rfl⟩

/-- C4 witness: the default store is reachable and duplicate-free, and
re-adding `"obj"` to it is rejected without change. -/
theorem C4_witness :
    ((defaultAssociations.map (·.extension)).Nodup) ∧
    (add_extension defaultAssociations (chars ("obj"))).prefs =
      defaultAssociations :=
  ⟨C4_pref_store_mapping.1 (reset_extensions []).prefs
     (Reachable.reset [] Reachable.init),
   (C4_pref_store_mapping.2 defaultAssociations (chars ("obj"))
     (by decide)).1⟩

/-- C3: the keyword arguments of a completed dispatch are chosen by the
introspected parameters of the associated operator: with
filepath+directory+files all three are passed (filepath joined from the
directory and the first matching file, the directory, and the matching
file list); with filepath+directory only those two (filepath is the bare
first file name); with filepath but no directory only the joined
filepath; with files+directory but no filepath the file list and the
directory; and the invoked operator is the one stored in the
association. -/
theorem C3_dispatch_kwargs_spec :
    ∀ (prefs : List FileAssociation) (propsOf : Str → OpProps)
      (call : Str → Kwargs → Except PyErr Unit)
      (selfFiles : List Str) (directory ext : Str) (inv : Invocation),
      import_single prefs propsOf call selfFiles directory ext = .ok inv →
      findOper prefs ext = some inv.oper ∧
      ((propsOf inv.oper).filepath = true →
          (propsOf inv.oper).directory = true →
          (propsOf inv.oper).files = true →
        ∃ f0 t, importFilesFor selfFiles ext = f0 :: t ∧
          inv.kwargs = ⟨some (os_path_join directory f0), some directory,
            some (importFilesFor selfFiles ext)⟩) ∧
      ((propsOf inv.oper).filepath = true →
          (propsOf inv.oper).directory = true →
          (propsOf inv.oper).files = false →
        ∃ f0 t, importFilesFor selfFiles ext = f0 :: t ∧
          inv.kwargs = ⟨some f0, some directory, none⟩) ∧
      ((propsOf inv.oper).filepath = true →
          (propsOf inv.oper).directory = false →
        ∃ f0 t, importFilesFor selfFiles ext = f0 :: t ∧
          inv.kwargs = ⟨some (os_path_join directory f0), none, none⟩) ∧
      ((propsOf inv.oper).filepath = false →
          (propsOf inv.oper).directory = true →
          (propsOf inv.oper).files = true →
        inv.kwargs = ⟨none, some directory,
          some (importFilesFor selfFiles ext)⟩) := by
  intro prefs propsOf call selfFiles directory ext inv h
  obtain ⟨hfind, hbk⟩ := import_single_ok h
  have hc := buildKwargs_ok_cases hbk
  refine ⟨hfind, ?_, ?_, ?_, ?_⟩
  · intro h1 h2 h3
    rcases hc with ⟨_, _, _, f0, t, hft, hkw⟩ | ⟨_, _, hff, _⟩ | ⟨_, hdd, _⟩ |
      ⟨hfp, _⟩ | ⟨hfp, _⟩
    · exact ⟨f0, t, hft, hkw⟩
    · rw [h3] at hff; exact Bool.noConfusion hff
    · rw [h2] at hdd; exact Bool.noConfusion hdd
    · rw [h1] at hfp; exact Bool.noConfusion hfp
    · rw [h1] at hfp; exact Bool.noConfusion hfp
  · intro h1 h2 h3
    rcases hc with ⟨_, _, hff, _⟩ | ⟨_, _, _, f0, t, hft, hkw⟩ | ⟨_, hdd, _⟩ |
      ⟨hfp, _⟩ | ⟨hfp, _⟩
    · rw [h3] at hff; exact Bool.noConfusion hff
    · exact ⟨f0, t, hft, hkw⟩
    · rw [h2] at hdd; exact Bool.noConfusion hdd
    · rw [h1] at hfp; exact Bool.noConfusion hfp
    · rw [h1] at hfp; exact Bool.noConfusion hfp
  · intro h1 h2
    rcases hc with ⟨_, hdd, _⟩ | ⟨_, hdd, _⟩ | ⟨_, _, f0, t, hft, hkw⟩ |
      ⟨hfp, _⟩ | ⟨hfp, _⟩
    · rw [h2] at hdd; exact Bool.noConfusion hdd
    · rw [h2] at hdd; exact Bool.noConfusion hdd
    · exact ⟨f0, t, hft, hkw⟩
    · rw [h1] at hfp; exact Bool.noConfusion hfp
    · rw [h1] at hfp; exact Bool.noConfusion hfp
  · intro h1 h2 h3
    rcases hc with ⟨hfp, _⟩ | ⟨hfp, _⟩ | ⟨hfp, _⟩ | ⟨_, _, _, hkw⟩ |
      ⟨_, hor, _⟩
    · rw [h1] at hfp; exact Bool.noConfusion hfp
    · rw [h1] at hfp; exact Bool.noConfusion hfp
    · rw [h1] at hfp; exact Bool.noConfusion hfp
    · exact hkw
    · rcases hor with hdd | hff
      · rw [h2] at hdd; exact Bool.noConfusion hdd
      · rw [h3] at hff; exact Bool.noConfusion hff

/-- C3 witness: a concrete dispatch through an operator exposing all
three parameters. -/
theorem C3_witness :
    findOper [⟨chars ("obj"), chars ("import_scene.obj")⟩] (chars ("obj")) =
      some (Invocation.mk (chars ("import_scene.obj"))
        ⟨some (chars ("/d/a.obj")), some (chars ("/d")),
         some [chars ("a.obj")]⟩).oper :=
  (C3_dispatch_kwargs_spec [⟨chars ("obj"), chars ("import_scene.obj")⟩]
    (fun _ => ⟨true, true, true⟩) (fun _ _ => .ok ())
    [chars ("a.obj")] (chars ("/d")) (chars ("obj"))
    (Invocation.mk (chars ("import_scene.obj"))
      ⟨some (chars ("/d/a.obj")), some (chars ("/d")),
       some [chars ("a.obj")]⟩)
    rfl).1

/-- C1 counterexample: two `.obj` files are selected and `obj` is
associated, but the configured operator only exposes `filepath`, so the
single invocation carries only the first file — `"b.obj"` appears in no
invocation's arguments although its extension is associated, and the run
finishes without error. -/
theorem C1_counterexample :
    execMentions
      (execute [⟨chars ("obj"), chars ("import_scene.obj")⟩]
        (fun _ => ⟨true, false, false⟩) (fun _ _ => .ok ())
        [chars ("a.obj"), chars ("b.obj")] (chars ("/d")))
      (chars ("/d")) (chars ("b.obj")) = false ∧
    chars ("b.obj") ∈ [chars ("a.obj"), chars ("b.obj")] ∧
    pyExtOf (chars ("b.obj")) ∈
      (effPrefs [⟨chars ("obj"), chars ("import_scene.obj")⟩]).map
        (·.extension) ∧
    (execute [⟨chars ("obj"), chars ("import_scene.obj")⟩]
        (fun _ => ⟨true, false, false⟩) (fun _ _ => .ok ())
        [chars ("a.obj"), chars ("b.obj")] (chars ("/d"))).error = none := by
  refine ⟨?_, by decide, by decide, ?_⟩ <;> rfl

/-- C1 (amended): on an error-free run, every selected file whose
extension is associated has its extension dispatched — some invocation
uses the operator stored for that extension — and when that operator
exposes both `files` and `directory` the file itself appears in the
invocation's `files` argument; operators without a `files` parameter
receive at most the first matching file. -/
theorem C1_dispatch_per_extension :
    ∀ (prefs0 : List FileAssociation) (propsOf : Str → OpProps)
      (call : Str → Kwargs → Except PyErr Unit)
      (selfFiles : List Str) (directory n : Str),
      (execute prefs0 propsOf call selfFiles directory).error = none →
      n ∈ selfFiles →
      pyExtOf n ∈ (effPrefs prefs0).map (·.extension) →
      ∃ inv,
        inv ∈ (execute prefs0 propsOf call selfFiles directory).invocations ∧
        findOper (effPrefs prefs0) (pyExtOf n) = some inv.oper ∧
        ((propsOf inv.oper).directory = true →
          (propsOf inv.oper).files = true →
          ∃ fs, inv.kwargs.files = some fs ∧ n ∈ fs) := by
  intro prefs0 propsOf call selfFiles directory n herr hn hassoc
  have hne : selfFiles ≠ [] := by rintro rfl; cases hn
  rw [execute_ne_nil _ _ _ _ _ hne] at herr ⊢
  have hrerr : (execLoop (effPrefs prefs0) propsOf call selfFiles directory
      ((effPrefs prefs0).map (·.extension))
      ((selfFiles.map pyExtOf).dedup)).err = none := by
    rcases hre : (execLoop (effPrefs prefs0) propsOf call selfFiles directory
        ((effPrefs prefs0).map (·.extension))
        ((selfFiles.map pyExtOf).dedup)).err with _ | e
    · exact hre
    · rw [execOutcomeOf_err_some hre] at herr; cases herr
  rw [execOutcomeOf_err_none hrerr]
  have hext : pyExtOf n ∈ (selfFiles.map pyExtOf).dedup :=
    List.mem_dedup.mpr (List.mem_map_of_mem _ hn)
  obtain ⟨inv, hinv, hok⟩ :=
    execLoop_err_none_dispatch (effPrefs prefs0) propsOf call selfFiles
      directory ((effPrefs prefs0).map (·.extension))
      ((selfFiles.map pyExtOf).dedup) hrerr (pyExtOf n) hext hassoc
  obtain ⟨hfind, hbk⟩ := import_single_ok hok
  refine ⟨inv, hinv, hfind, ?_⟩
  intro hdir hfl
  refine ⟨importFilesFor selfFiles (pyExtOf n),
    buildKwargs_files_field hdir hfl hbk, ?_⟩
  exact mem_importFilesFor.mpr ⟨hn, pyExtOf_isSuffixOf rfl⟩

/-- C1 witness: with an operator exposing all three parameters the
amended theorem produces an invocation, so the invocation list is
non-empty. -/
theorem C1_witness :
    (execute [⟨chars ("obj"), chars ("import_scene.obj")⟩]
        (fun _ => ⟨true, true, true⟩) (fun _ _ => .ok ())
        [chars ("a.obj"), chars ("b.obj")] (chars ("/d"))).invocations ≠
      [] := by
  obtain ⟨inv, hinv, _⟩ :=
    C1_dispatch_per_extension [⟨chars ("obj"), chars ("import_scene.obj")⟩]
      (fun _ => ⟨true, true, true⟩) (fun _ _ => .ok ())
      [chars ("a.obj"), chars ("b.obj")] (chars ("/d")) (chars ("b.obj"))
      (by rfl) (by decide) (by decide)
  intro hnil
  rw [hnil] at hinv
  cases hinv

/-- C5 counterexample: with selection `["a.obj", "b.pobj"]` and only
`obj` associated, the run warns about `pobj`, but `"b.pobj"` — a file
whose extension has no association — is still passed in the `files`
argument of the `obj` dispatch, so an import IS attempted for it. -/
theorem C5_counterexample :
    (execute [⟨chars ("obj"), chars ("import_scene.obj")⟩]
        (fun _ => ⟨true, true, true⟩) (fun _ _ => .ok ())
        [chars ("a.obj"), chars ("b.pobj")] (chars ("/d"))).invocations =
      [⟨chars ("import_scene.obj"),
        ⟨some (chars ("/d/a.obj")), some (chars ("/d")),
         some [chars ("a.obj"), chars ("b.pobj")]⟩⟩] ∧
    pyExtOf (chars ("b.pobj")) ∉
      (effPrefs [⟨chars ("obj"), chars ("import_scene.obj")⟩]).map
        (·.extension) := by
  exact ⟨rfl, by decide⟩

/-- C5 (amended): on an error-free run with at least one file of an
unassociated extension, `execute` still returns `FINISHED`, issues one
single warning whose list is exactly the distinct unassociated
extensions, dispatches every associated extension, and performs no
per-extension import call for the unassociated extensions (though a file
of an unassociated extension can still ride along in an associated
extension's `files` argument when its name ends with that extension). -/
theorem C5_unassociated_extensions :
    ∀ (prefs0 : List FileAssociation) (propsOf : Str → OpProps)
      (call : Str → Kwargs → Except PyErr Unit)
      (selfFiles : List Str) (directory : Str),
      (execute prefs0 propsOf call selfFiles directory).error = none →
      (∃ n, n ∈ selfFiles ∧
        pyExtOf n ∉ (effPrefs prefs0).map (·.extension)) →
      (execute prefs0 propsOf call selfFiles directory).result =
        some .FINISHED ∧
      (execute prefs0 propsOf call selfFiles directory).reports =
        [(.WARNING,
          warnMsg (execute prefs0 propsOf call selfFiles directory).ext_missing)] ∧
      (execute prefs0 propsOf call selfFiles directory).ext_missing.Nodup ∧
      (∀ e, e ∈ (execute prefs0 propsOf call selfFiles directory).ext_missing ↔
        (e ∈ selfFiles.map pyExtOf ∧
          e ∉ (effPrefs prefs0).map (·.extension))) ∧
      (∀ e, e ∈ selfFiles.map pyExtOf →
        e ∈ (effPrefs prefs0).map (·.extension) →
        ∃ inv,
          inv ∈ (execute prefs0 propsOf call selfFiles directory).invocations ∧
          import_single (effPrefs prefs0) propsOf call selfFiles directory e =
            .ok inv) ∧
      (∀ inv,
        inv ∈ (execute prefs0 propsOf call selfFiles directory).invocations →
        ∃ e, e ∈ (effPrefs prefs0).map (·.extension) ∧
          import_single (effPrefs prefs0) propsOf call selfFiles directory e =
            .ok inv) := by
  intro prefs0 propsOf call selfFiles directory herr hex
  obtain ⟨n0, hn0, hn0m⟩ := hex
  have hne : selfFiles ≠ [] := by rintro rfl; cases hn0
  rw [execute_ne_nil _ _ _ _ _ hne] at herr ⊢
  have hrerr : (execLoop (effPrefs prefs0) propsOf call selfFiles directory
      ((effPrefs prefs0).map (·.extension))
      ((selfFiles.map pyExtOf).dedup)).err = none := by
    rcases hre : (execLoop (effPrefs prefs0) propsOf call selfFiles directory
        ((effPrefs prefs0).map (·.extension))
        ((selfFiles.map pyExtOf).dedup)).err with _ | e
    · exact hre
    · rw [execOutcomeOf_err_some hre] at herr; cases herr
  rw [execOutcomeOf_err_none hrerr]
  have hmiss := execLoop_err_none_miss (effPrefs prefs0) propsOf call selfFiles
    directory ((effPrefs prefs0).map (·.extension))
    ((selfFiles.map pyExtOf).dedup) hrerr
  have hmemiff : ∀ e,
      e ∈ (execLoop (effPrefs prefs0) propsOf call selfFiles directory
        ((effPrefs prefs0).map (·.extension))
        ((selfFiles.map pyExtOf).dedup)).miss ↔
      (e ∈ selfFiles.map pyExtOf ∧
        e ∉ (effPrefs prefs0).map (·.extension)) := by
    intro e
    rw [hmiss, List.mem_filter, List.mem_dedup]
    simp
  have hndup : (execLoop (effPrefs prefs0) propsOf call selfFiles directory
      ((effPrefs prefs0).map (·.extension))
      ((selfFiles.map pyExtOf).dedup)).miss.Nodup := by
    rw [hmiss]
    exact (List.nodup_dedup _).filter _
  have hmiss_ne : (execLoop (effPrefs prefs0) propsOf call selfFiles directory
      ((effPrefs prefs0).map (·.extension))
      ((selfFiles.map pyExtOf).dedup)).miss ≠ [] := by
    intro h0
    have hin := (hmemiff (pyExtOf n0)).mpr ⟨List.mem_map_of_mem _ hn0, hn0m⟩
    rw [h0] at hin
    cases hin
  refine ⟨rfl, ?_, hndup, hmemiff, ?_, ?_⟩
  · show (if _ = ([] : List Str) then _ else _) = _
    rw [if_neg hmiss_ne]
  · intro e hemem hecurr
    exact execLoop_err_none_dispatch (effPrefs prefs0) propsOf call selfFiles
      directory ((effPrefs prefs0).map (·.extension))
      ((selfFiles.map pyExtOf).dedup) hrerr e (List.mem_dedup.mpr hemem) hecurr
  · intro inv hinv
    obtain ⟨e, _, hc, hok⟩ :=
      execLoop_err_none_src (effPrefs prefs0) propsOf call selfFiles directory
        ((effPrefs prefs0).map (·.extension))
        ((selfFiles.map pyExtOf).dedup) hrerr inv hinv
    exact ⟨e, hc, hok⟩

/-- C5 witness: the amended theorem at the counterexample's input. -/
theorem C5_witness :
    (execute [⟨chars ("obj"), chars ("import_scene.obj")⟩]
        (fun _ => ⟨true, true, true⟩) (fun _ _ => .ok ())
        [chars ("a.obj"), chars ("b.pobj")] (chars ("/d"))).result =
      some .FINISHED :=
  (C5_unassociated_extensions [⟨chars ("obj"), chars ("import_scene.obj")⟩]
    (fun _ => ⟨true, true, true⟩) (fun _ _ => .ok ())
    [chars ("a.obj"), chars ("b.pobj")] (chars ("/d")) rfl
    ⟨chars ("b.pobj"), by decide, by decide⟩).1

/-- C7: there is no failure recovery. If the per-extension import of some
extension in the iteration order raises, the exception escapes `execute`
uncaught (no `FINISHED`, no warning report), the invocations already made
stay made (no rollback), and the remaining extensions are not
dispatched: the invocation list is exactly the one accumulated before the
failing extension. -/
theorem C7_no_failure_recovery :
    ∀ (prefs0 : List FileAssociation) (propsOf : Str → OpProps)
      (call : Str → Kwargs → Except PyErr Unit)
      (selfFiles : List Str) (directory : Str)
      (l1 l2 : List Str) (ext : Str) (e : PyErr),
      selfFiles ≠ [] →
      (selfFiles.map pyExtOf).dedup = l1 ++ ext :: l2 →
      (execLoop (effPrefs prefs0) propsOf call selfFiles directory
        ((effPrefs prefs0).map (·.extension)) l1).err = none →
      ext ∈ (effPrefs prefs0).map (·.extension) →
      import_single (effPrefs prefs0) propsOf call selfFiles directory ext =
        .error e →
      (execute prefs0 propsOf call selfFiles directory).error = some e ∧
      (execute prefs0 propsOf call selfFiles directory).result = none ∧
      (execute prefs0 propsOf call selfFiles directory).reports = [] ∧
      (execute prefs0 propsOf call selfFiles directory).invocations =
        (execLoop (effPrefs prefs0) propsOf call selfFiles directory
          ((effPrefs prefs0).map (·.extension)) l1).invs := by
  intro prefs0 propsOf call selfFiles directory l1 l2 ext e hne hdec hl1 hcm himp
  have hstep : execLoop (effPrefs prefs0) propsOf call selfFiles directory
      ((effPrefs prefs0).map (·.extension)) (ext :: l2) = ⟨[], [], some e⟩ := by
    rw [execLoop, if_pos hcm, himp]
  have happ := execLoop_append_err_none (effPrefs prefs0) propsOf call selfFiles
    directory ((effPrefs prefs0).map (·.extension)) l1 (ext :: l2) hl1
  rw [hstep] at happ
  rw [execute_ne_nil _ _ _ _ _ hne, hdec, happ]
  refine ⟨rfl, rfl, rfl, ?_⟩
  show (execLoop (effPrefs prefs0) propsOf call selfFiles directory
    ((effPrefs prefs0).map (·.extension)) l1).invs ++ [] = _
  simp

/-- C7 witness: a failing host call on the first of two associated
extensions escapes as the recorded error. -/
theorem C7_witness :
    (execute [⟨chars ("obj"), chars ("import_scene.obj")⟩,
              ⟨chars ("fbx"), chars ("import_scene.fbx")⟩]
        (fun _ => ⟨false, false, false⟩)
        (fun _ _ => .error (.hostError (chars ("boom"))))
        [chars ("a.obj"), chars ("b.fbx")] (chars ("/d"))).error =
      some (.hostError (chars ("boom"))) :=
  (C7_no_failure_recovery [⟨chars ("obj"), chars ("import_scene.obj")⟩,
      ⟨chars ("fbx"), chars ("import_scene.fbx")⟩]
    (fun _ => ⟨false, false, false⟩)
    (fun _ _ => .error (.hostError (chars ("boom"))))
    [chars ("a.obj"), chars ("b.fbx")] (chars ("/d"))
    [] [chars ("fbx")] (chars ("obj")) (.hostError (chars ("boom")))
    (by decide) (by decide) rfl (by decide) rfl).1

end Aardvark
